import Mathlib

/-!
Verification of `src/perf/local_thr.cpp` (a ZMQ throughput benchmark that
optionally persists each received message to disk through a bounded,
round-robin pool of writer threads).

The C code is shallowly embedded below.  Machine integers (`int`,
`unsigned long`) are modelled as `Int`/`Nat` (no run here approaches
overflow and the claims quantify only over in-range configurations);
`double` arithmetic is modelled as exact rational arithmetic `ℚ`, with
the C cast `(unsigned long)` of a non-negative `double` modelled as
`Int.floor` (the cast truncates toward zero).  Fallible environment
steps (`fopen`) become explicit boolean outcomes, and the observable
side effects of a worker (log line, file open, file written, buffer
released) are returned in a record.
-/

namespace LocalThr

/-! ### DiskWriter: `file_writer`, lines 46-79 of local_thr.cpp -/

/-- Line 46: `#define MAX_THREADS 10`. -/
def MAX_THREADS : Int := 10

/-- The `%06d` field of `sprintf (fn, "%s/data/test%06d.dat", disk_name, thread_ctr)`
(line 67): decimal digits, zero-padded on the left to width 6 (wider values
print in full, as `printf` does for a non-negative `int`). -/
def pad6 (n : Nat) : String :=
  let s := toString n
  String.mk (List.replicate (6 - s.length) '0') ++ s

/-- The file name built at line 67: `<disk_name>/data/test<ctr 0-padded to 6>.dat`. -/
def fileName (dn : String) (ctr : Nat) : String :=
  dn ++ "/data/test" ++ pad6 ctr ++ ".dat"

/-- Observable effects of one `file_writer` invocation (lines 61-79):
whether the failure diagnostic of line 70 was printed, whether `fopen`
(line 68) was invoked, which file (name, contents) was written by
`fwrite` (line 73) if any, and whether the message buffer was released
(`zmq_msg_close` + `free`, lines 76-77). -/
structure FWResult where
  logged : Bool
  opened : Bool
  written : Option (String × List Nat)
  released : Bool
  deriving DecidableEq, Repr

/-- Lines 61-79, `file_writer`.  Parameters stand for what the C worker
reads when it runs: `dn` is the `disk_name` global, `ctr` the value of
`thread_ctr` it observes at its `sprintf`, `openFails` the outcome of
`fopen` (line 68; `none` result in C), and `payload` the message bytes.
The control flow is translated branch for branch; note that the
early `return 0` at line 71 (open failure) leaves the function before
the `zmq_msg_close`/`free` of lines 76-77. -/
def file_writer (dn : String) (ctr : Nat) (openFails : Bool) (payload : List Nat) :
    FWResult :=
  if dn ≠ "/network" then
    if openFails then
      { logged := true, opened := true, written := none, released := false }
    else
      { logged := false, opened := true,
        written := some (fileName dn ctr, payload), released := true }
  else
    { logged := false, opened := false, written := none, released := true }

/-! ### Configuration parsing of the worker count, lines 116-121 -/

/-- Lines 116-121: `no_threads = 1; if (argc > 5) { no_threads = atoi(argv[5]);
if (no_threads > MAX_THREADS) no_threads = MAX_THREADS; }`.  `argv5` is the
integer `atoi` produced from the fifth argument. -/
def parse_no_threads (argc : Nat) (argv5 : Int) : Int :=
  if argc > 5 then
    (if argv5 > MAX_THREADS then MAX_THREADS else argv5)
  else 1

/-! ### Integrity check on the embedded sequence counter, lines 186-192 -/

/-- Line 188: the diagnostic fires exactly when
`(new_msg_counter - msg_counter) != 1`. -/
def corruptFlag (prev cur : Int) : Bool :=
  decide (cur - prev ≠ 1)

/-- The per-message integrity-check part of the receive loop
(lines 186-192), run over the list of counters embedded in the
messages received after the first.  `prev` is `msg_counter` (the
baseline from the first message, line 163).  Returns the list of
diagnostics printed (each carries the previous and current counter,
line 189) and the final `msg_counter`; there is no abort path. -/
def runChecker : Int → List Int → List (Int × Int) × Int
  | prev, [] => ([], prev)
  | prev, c :: rest =>
      let r := runChecker c rest
      ((if corruptFlag prev c then [(prev, c)] else []) ++ r.1, r.2)

/-! ### Throughput computations, lines 204-212 and 219-232.
`double` arithmetic is modelled exactly over `ℚ`; the C cast
`(unsigned long)(...)` of the non-negative rate is `Int.floor`. -/

/-- Lines 206-207 and 229-230:
`throughput = (unsigned long) ((double) count / (double) elapsed * 1000000)`.
(In the interval report `count` is the literal 1000; in the aggregate
report it is `message_count`.) -/
def throughputCalc (count elapsed : Nat) : Int :=
  ⌊(count : ℚ) / (elapsed : ℚ) * 1000000⌋

/-- Lines 208 and 231: `megabytes = (double) (throughput * message_size) / 1000000`. -/
def megabytesCalc (count elapsed msize : Nat) : ℚ :=
  ((throughputCalc count elapsed : ℚ) * (msize : ℚ)) / 1000000

/-- Lines 209 and 232: `megabits = (double) (throughput * message_size * 8) / 1000000`. -/
def megabitsCalc (count elapsed msize : Nat) : ℚ :=
  ((throughputCalc count elapsed : ℚ) * (msize : ℚ) * 8) / 1000000

/-- The spec's formula, for comparison with `throughputCalc`:
`throughput = round(count / elapsed_microseconds * 1_000_000)`. -/
def specThroughput (count elapsed : Nat) : Int :=
  round ((count : ℚ) / (elapsed : ℚ) * 1000000)

/-- Lines 220-221: `if (elapsed == 0) elapsed = 1;` applied to the
full-run elapsed time before the aggregate computation. -/
def clampElapsed (e : Nat) : Nat :=
  if e = 0 then 1 else e

/-- The aggregate throughput of lines 219-230: the full-run elapsed time
is clamped by `clampElapsed` and then fed to the line-229 formula. -/
def aggThroughput (message_count e : Nat) : Int :=
  throughputCalc message_count (clampElapsed e)

/-! ### The dispatch loop, lines 168-217.
The orchestrator's receive loop is embedded as a fuel-indexed state
machine.  The state carries the loop index `i`, the global
`thread_ctr`, the `file_writer_thread` slot array (a slot holds the
identity of its current occupant worker, `none` standing for the
initial handle 0 of lines 169-171, on the usual platforms where a live
`pthread_t` is never 0), and a ghost trace of the synchronization
events the loop performs, newest first: `Ev.join w s` when line 198
`pthread_join`s the worker `w` occupying slot `s` (i.e. that worker's
work, disk write included, has completed), and `Ev.disp w s` when
line 201 `pthread_create`s worker `w` in slot `s`.  Workers are
identified by their dispatch index `i`. -/

/-- A synchronization event of the run loop (ghost trace). -/
inductive Ev
  | disp (w : Int) (s : Nat)
  | join (w : Int) (s : Nat)
  deriving DecidableEq, Repr

/-- The slot index an event is about. -/
def Ev.slot : Ev → Nat
  | .disp _ s => s
  | .join _ s => s

/-- The events of a trace concerning slot `s`, order preserved. -/
def filterSlot (s : Nat) (t : List Ev) : List Ev :=
  t.filter (fun e => e.slot = s)

/-- State of the receive loop of lines 174-217 (the parts the claims
are about; the ghost `trace` records events newest first). -/
structure LoopState where
  i : Int
  thread_ctr : Int
  slots : Nat → Option Int
  trace : List Ev

/-- State on entry to the loop: `i = 0` (line 174), `thread_ctr = 0`
(line 48), all slot handles 0 (lines 169-171), empty trace. -/
def initState : LoopState :=
  { i := 0, thread_ctr := 0, slots := fun _ => none, trace := [] }

/-- One iteration body of the loop (lines 196-203): compute the slot
`i % no_threads`, join the occupant if the slot handle is non-zero
(lines 197-199), create the new worker in the slot (line 201), and
increment `thread_ctr` (line 203). -/
def loopBody (nt : Int) (st : LoopState) : LoopState :=
  let slot := (st.i % nt).toNat
  let joins : List Ev :=
    match st.slots slot with
    | some w => [Ev.join w slot]
    | none => []
  { i := st.i + 1
    thread_ctr := st.thread_ctr + 1
    slots := fun j => if j = slot then some st.i else st.slots j
    trace := Ev.disp st.i slot :: (joins ++ st.trace) }

/-- The loop `for (i = 0; i != message_count - 1; i++)` of line 174,
fuel-indexed: `none` means the given fuel did not suffice to reach the
exit condition `i = message_count - 1`. -/
def runLoop (mc nt : Int) : Nat → LoopState → Option LoopState
  | 0, _ => none
  | f + 1, st => if st.i = mc - 1 then some st else runLoop mc nt f (loopBody nt st)

/-- The per-slot shape of a well-synchronized trace, read newest
first: `RChain s t occ` says the slot-`s` events `t` are exactly an
alternation `join/create` consistent with `occ` being the slot's
current occupant — every worker created in the slot after the first
was created only after the previous occupant was joined. -/
inductive RChain (s : Nat) : List Ev → Option Int → Prop
  | nil : RChain s [] none
  | disp (w : Int) (l : List Ev) : RChain s l none →
      RChain s (Ev.disp w s :: l) (some w)
  | join (w : Int) (l : List Ev) : RChain s l (some w) →
      RChain s (Ev.join w s :: l) none

/-- Loop invariant: each slot's event subsequence is a proper
join-before-reuse alternation whose last creation matches the slot's
handle. -/
def Inv (st : LoopState) : Prop :=
  ∀ s : Nat, RChain s (filterSlot s st.trace) (st.slots s)

/-! ### Scheduling model for the `thread_ctr` read, lines 67 and 201-203.
`file_writer` reads the *global* `thread_ctr` when it builds the file
name (line 67); the orchestrator increments that global at line 203,
*after* the `pthread_create` of line 201, with no synchronization
between the two.  The interleaving of these accesses is modelled as a
small scheduled system: the main thread alternates `create worker k`
(even steps) and `thread_ctr++` (odd steps), and a worker `k`, once
created, at any later point performs its single relevant action of
reading the current `thread_ctr` for its `sprintf`. -/

/-- A scheduler choice: run the main thread one step, or run worker `k`. -/
inductive Choice
  | mn
  | wk (k : Nat)
  deriving DecidableEq, Repr

/-- State of the scheduled system: the global counter, how many main
substeps have run (substep `2k` creates worker `k`, substep `2k + 1`
is `thread_ctr++`), and the counter value each worker observed at its
`sprintf` (`none` until it runs). -/
structure CState where
  ctr : Int
  mainSteps : Nat
  observed : Nat → Option Int

/-- Initial scheduled state: `thread_ctr = 0` (line 48), nothing run. -/
def cinit : CState :=
  { ctr := 0, mainSteps := 0, observed := fun _ => none }

/-- One scheduled step.  A `wk k` choice does nothing unless worker
`k` has been created and has not yet read the counter. -/
def cstep (c : Choice) (st : CState) : CState :=
  match c with
  | .mn =>
      if st.mainSteps % 2 = 0 then { st with mainSteps := st.mainSteps + 1 }
      else { st with ctr := st.ctr + 1, mainSteps := st.mainSteps + 1 }
  | .wk k =>
      if 2 * k < st.mainSteps ∧ st.observed k = none then
        { st with observed := fun j => if j = k then some st.ctr else st.observed j }
      else st

/-- Run a whole schedule from a state. -/
def crun : List Choice → CState → CState
  | [], st => st
  | c :: cs, st => crun cs (cstep c st)

/-! ## Theorems -/

/-! ### Helper lemmas about the loop embedding -/

theorem filterSlot_cons (s : Nat) (e : Ev) (t : List Ev) :
    filterSlot s (e :: t) =
      if e.slot = s then e :: filterSlot s t else filterSlot s t := by
  by_cases h : e.slot = s
  · simp [filterSlot, List.filter_cons, h]
  · simp [filterSlot, List.filter_cons, h]

theorem filterSlot_reverse (s : Nat) (t : List Ev) :
    filterSlot s t.reverse = (filterSlot s t).reverse := by
  induction t with
  | nil => rfl
  | cons e t ih =>
      simp only [List.reverse_cons, filterSlot, List.filter_append, List.filter_cons]
      simp only [filterSlot] at ih
      by_cases h : e.slot = s
      · simp [h, ih]
      · simp [h, ih]

/-- Whenever the loop exits, the index has reached `message_count - 1`. -/
theorem runLoop_i_eq (mc nt : Int) :
    ∀ (f : Nat) (st st' : LoopState), runLoop mc nt f st = some st' → st'.i = mc - 1 := by
  intro f
  induction f with
  | zero => intro st st' h; simp [runLoop] at h
  | succ f ih =>
      intro st st' h
      rw [runLoop] at h
      by_cases hc : st.i = mc - 1
      · rw [if_pos hc] at h
        injection h with h
        subst h
        exact hc
      · rw [if_neg hc] at h
        exact ih _ _ h

/-- `thread_ctr` and `i` advance in lockstep through the loop. -/
theorem runLoop_ctr_eq_i (mc nt : Int) :
    ∀ (f : Nat) (st st' : LoopState), runLoop mc nt f st = some st' →
      st'.thread_ctr - st'.i = st.thread_ctr - st.i := by
  intro f
  induction f with
  | zero => intro st st' h; simp [runLoop] at h
  | succ f ih =>
      intro st st' h
      rw [runLoop] at h
      by_cases hc : st.i = mc - 1
      · rw [if_pos hc] at h
        injection h with h
        subst h
        rfl
      · rw [if_neg hc] at h
        have hb := ih _ _ h
        have h1 : (loopBody nt st).i = st.i + 1 := rfl
        have h2 : (loopBody nt st).thread_ctr = st.thread_ctr + 1 := rfl
        omega

/-- With enough fuel the loop exits as soon as the index can reach
`message_count - 1`. -/
theorem runLoop_exit (mc nt : Int) :
    ∀ (k : Nat) (st : LoopState), st.i ≤ mc - 1 → (mc - 1 - st.i).toNat = k →
      ∃ st', runLoop mc nt (k + 1) st = some st' := by
  intro k
  induction k with
  | zero =>
      intro st hle h0
      have hi : st.i = mc - 1 := by omega
      exact ⟨st, by rw [runLoop, if_pos hi]⟩
  | succ k ih =>
      intro st hle hk
      have hne : st.i ≠ mc - 1 := by omega
      have h1 : (loopBody nt st).i = st.i + 1 := rfl
      obtain ⟨st', hst'⟩ := ih (loopBody nt st) (by omega) (by omega)
      exact ⟨st', by rw [runLoop, if_neg hne]; exact hst'⟩

/-- For `message_count ≤ 0` the exit condition `i = message_count - 1`
is never met from a non-negative index: no amount of fuel finishes the
loop. -/
theorem runLoop_none_of_nonpos (mc nt : Int) (hmc : mc ≤ 0) :
    ∀ (f : Nat) (st : LoopState), 0 ≤ st.i → runLoop mc nt f st = none := by
  intro f
  induction f with
  | zero => intro st _; rfl
  | succ f ih =>
      intro st h
      rw [runLoop, if_neg (by omega)]
      have h1 : (loopBody nt st).i = st.i + 1 := rfl
      exact ih _ (by omega)

/-- The initial state satisfies the per-slot alternation invariant. -/
theorem inv_init : Inv initState := fun _ => RChain.nil

/-- One loop iteration preserves the per-slot alternation invariant:
the slot it touches gets (join of the occupant, if any, then) a
creation recorded, every other slot is untouched. -/
theorem inv_loopBody (nt : Int) (st : LoopState) (h : Inv st) : Inv (loopBody nt st) := by
  intro s
  have hsl : (loopBody nt st).slots s =
      if s = (st.i % nt).toNat then some st.i else st.slots s := rfl
  rcases hocc : st.slots ((st.i % nt).toNat) with _ | w
  · have htr : (loopBody nt st).trace = Ev.disp st.i ((st.i % nt).toNat) :: st.trace := by
      simp [loopBody, hocc]
    rw [htr, hsl]
    by_cases hs : s = (st.i % nt).toNat
    · subst hs
      rw [if_pos rfl]
      simp only [filterSlot_cons, Ev.slot, eq_self_iff_true, if_true]
      refine RChain.disp st.i _ ?_
      have hbase := h ((st.i % nt).toNat)
      rw [hocc] at hbase
      exact hbase
    · have hc : ((st.i % nt).toNat = s) = False := eq_false (fun he => hs he.symm)
      rw [if_neg hs]
      simp only [filterSlot_cons, Ev.slot, hc, if_false]
      exact h s
  · have htr : (loopBody nt st).trace =
        Ev.disp st.i ((st.i % nt).toNat) ::
          Ev.join w ((st.i % nt).toNat) :: st.trace := by
      simp [loopBody, hocc]
    rw [htr, hsl]
    by_cases hs : s = (st.i % nt).toNat
    · subst hs
      rw [if_pos rfl]
      simp only [filterSlot_cons, Ev.slot, eq_self_iff_true, if_true]
      refine RChain.disp st.i _ (RChain.join w _ ?_)
      have hbase := h ((st.i % nt).toNat)
      rw [hocc] at hbase
      exact hbase
    · have hc : ((st.i % nt).toNat = s) = False := eq_false (fun he => hs he.symm)
      rw [if_neg hs]
      simp only [filterSlot_cons, Ev.slot, hc, if_false]
      exact h s

/-- The invariant holds at loop exit. -/
theorem runLoop_inv (mc nt : Int) :
    ∀ (f : Nat) (st st' : LoopState), runLoop mc nt f st = some st' → Inv st → Inv st' := by
  intro f
  induction f with
  | zero => intro st st' h; simp [runLoop] at h
  | succ f ih =>
      intro st st' h hinv
      rw [runLoop] at h
      by_cases hc : st.i = mc - 1
      · rw [if_pos hc] at h
        injection h with h
        subst h
        exact hinv
      · rw [if_neg hc] at h
        exact ih _ _ h (inv_loopBody nt st hinv)

/-- Inversion: a creation event at the head of a slot chain whose
occupant is `some w` identifies the occupant with the created worker. -/
theorem rchain_disp_inv {s : Nat} {w w1 : Int} {l : List Ev}
    (h : RChain s (Ev.disp w1 s :: l) (some w)) : w = w1 := by
  cases h
  rfl

/-- Key structural fact about a slot chain, read newest first: behind
any creation event the immediately preceding portion `r2` (the events
that came *after* it in program order) ends — i.e. begins, in program
order — with a join of exactly that worker; when the slot's current
occupant is that worker, `r2` may instead be empty. -/
theorem rchain_key (s : Nat) :
    ∀ {r : List Ev} {occ : Option Int}, RChain s r occ →
      ∀ (r2 : List Ev) (w1 : Int) (r1 : List Ev), r = r2 ++ Ev.disp w1 s :: r1 →
        (occ = none → ∃ r2', r2 = r2' ++ [Ev.join w1 s]) ∧
        (∀ w : Int, occ = some w → r2 = [] ∨ ∃ r2', r2 = r2' ++ [Ev.join w1 s]) := by
  intro r occ h
  induction h with
  | nil =>
      intro r2 w1 r1 heq
      exact absurd heq (by cases r2 <;> simp)
  | disp w l hl ih =>
      intro r2 w1 r1 heq
      cases r2 with
      | nil =>
          refine ⟨fun hn => absurd hn (by simp), fun w' _ => Or.inl rfl⟩
      | cons e r2t =>
          injection heq with he hl2
          obtain ⟨r2', hr2'⟩ := (ih r2t w1 r1 hl2).1 rfl
          exact ⟨fun hn => absurd hn (by simp),
            fun w' _ => Or.inr ⟨e :: r2', by simp [hr2']⟩⟩
  | join w l hl ih =>
      intro r2 w1 r1 heq
      cases r2 with
      | nil =>
          injection heq with he hl2
          exact Ev.noConfusion he
      | cons e r2t =>
          injection heq with he hl2
          rcases (ih r2t w1 r1 hl2).2 w rfl with h0 | ⟨r2', hr2'⟩
          · subst h0
            rw [hl2] at hl
            have hw : w = w1 := rchain_disp_inv hl
            subst he
            refine ⟨fun _ => ⟨[], by simp [hw]⟩, fun w' _ => Or.inr ⟨[], by simp [hw]⟩⟩
          · subst he
            refine ⟨fun _ => ⟨Ev.join w s :: r2', by simp [hr2']⟩,
              fun w' _ => Or.inr ⟨Ev.join w s :: r2', by simp [hr2']⟩⟩

/-- C1: join-before-reuse.  In any run of the receive loop, reading
the event trace in program order (oldest first), whenever two workers
`w1` and then `w2` are dispatched into the same slot `s`, the very
next slot-`s` event after `w1`'s dispatch is the join of `w1` — in
particular `w1` is joined (its disk write, if any, has completed)
strictly before `w2` is dispatched into slot `s`. -/
theorem c1_join_before_reuse (mc nt : Int) (f : Nat) (st : LoopState) (s : Nat)
    (l1 l2 : List Ev) (w1 w2 : Int)
    (hrun : runLoop mc nt f initState = some st)
    (hdec : filterSlot s st.trace.reverse = l1 ++ Ev.disp w1 s :: l2)
    (hmem : Ev.disp w2 s ∈ l2) :
    ∃ l2', l2 = Ev.join w1 s :: l2' ∧ Ev.disp w2 s ∈ l2' := by
  have hinv : Inv st := runLoop_inv mc nt f initState st hrun inv_init
  have hch : RChain s (filterSlot s st.trace) (st.slots s) := hinv s
  have hrev : filterSlot s st.trace = l2.reverse ++ Ev.disp w1 s :: l1.reverse := by
    have h1 : (filterSlot s st.trace.reverse).reverse = filterSlot s st.trace := by
      rw [filterSlot_reverse, List.reverse_reverse]
    rw [← h1, hdec]
    simp
  have hkey := rchain_key s hch l2.reverse w1 l1.reverse hrev
  have hne : l2.reverse ≠ [] := by
    intro h0
    rw [List.reverse_eq_nil_iff] at h0
    subst h0
    simp at hmem
  have hsplit : ∃ r2', l2.reverse = r2' ++ [Ev.join w1 s] := by
    rcases hoc : st.slots s with _ | w
    · exact hkey.1 hoc
    · rcases hkey.2 w hoc with h0 | hr
      · exact absurd h0 hne
      · exact hr
  obtain ⟨r2', hr2'⟩ := hsplit
  have hl2 : l2 = Ev.join w1 s :: r2'.reverse := by
    have := congrArg List.reverse hr2'
    simpa using this
  refine ⟨r2'.reverse, hl2, ?_⟩
  rw [hl2] at hmem
  rcases List.mem_cons.mp hmem with he | hm
  · exact Ev.noConfusion he
  · exact hm

/-- C1 witness: a concrete run with `message_count = 4` and one slot;
the trace in program order is
`[disp 0, join 0, disp 1, join 1, disp 2]` on slot 0, and between the
dispatches of workers 0 and 1 stands the join of worker 0. -/
theorem c1_join_before_reuse_witness :
    ∃ l2', ([Ev.join 0 0, Ev.disp 1 0, Ev.join 1 0, Ev.disp 2 0] : List Ev) =
        Ev.join 0 0 :: l2' ∧ Ev.disp 1 0 ∈ l2' :=
  c1_join_before_reuse 4 1 4 ((runLoop 4 1 4 initState).getD initState) 0
    [] [Ev.join 0 0, Ev.disp 1 0, Ev.join 1 0, Ev.disp 2 0] 0 1
    (by rfl) (by rfl) (by decide)

/-- C2: for every valid configuration (`message_count ≥ 1`,
`1 ≤ no_threads`), the loop exits, and at loop exit the total number
of dispatched workers counted by `thread_ctr` is `message_count - 1` —
the first received message only sets the baseline (line 163) and is
never handed to a worker. -/
theorem c2_total_dispatched_workers (mc nt : Int) (hmc : 1 ≤ mc) (_hnt : 0 < nt) :
    (∃ f st', runLoop mc nt f initState = some st' ∧ st'.thread_ctr = mc - 1) ∧
    (∀ f st', runLoop mc nt f initState = some st' → st'.thread_ctr = mc - 1) := by
  have hctr : ∀ f st', runLoop mc nt f initState = some st' → st'.thread_ctr = mc - 1 := by
    intro f st' hr
    have h1 := runLoop_i_eq mc nt f initState st' hr
    have h2 := runLoop_ctr_eq_i mc nt f initState st' hr
    have h3 : initState.thread_ctr - initState.i = 0 := rfl
    omega
  refine ⟨?_, hctr⟩
  have h0 : initState.i ≤ mc - 1 := by
    have : initState.i = 0 := rfl
    omega
  obtain ⟨st', hst'⟩ := runLoop_exit mc nt (mc - 1 - initState.i).toNat initState h0 rfl
  exact ⟨_, st', hst', hctr _ _ hst'⟩

/-- C2 witness: with `message_count = 3` and one worker slot the run
exits with `thread_ctr = 3 - 1`. -/
theorem c2_total_dispatched_workers_witness :
    (1 : Int) ≤ 3 ∧
      ∃ f st', runLoop 3 1 f initState = some st' ∧ st'.thread_ctr = 3 - 1 :=
  ⟨by decide, (c2_total_dispatched_workers 3 1 (by decide) (by decide)).1⟩

/-- C10: the receive loop (exit test `i ≠ message_count - 1`, index
starting at 0 and incremented by 1) terminates if and only if
`message_count ≥ 1` — for `message_count ≤ 0` no fuel suffices, so the
aggregate report is never reached — and when it terminates the index,
i.e. the number of iterations performed, is exactly
`message_count - 1`. -/
theorem c10_loop_termination_iff (mc nt : Int) (_hnt : 0 < nt) :
    ((∃ f st', runLoop mc nt f initState = some st') ↔ 1 ≤ mc) ∧
    (∀ f st', runLoop mc nt f initState = some st' → st'.i = mc - 1) := by
  refine ⟨⟨?_, ?_⟩, fun f st' h => runLoop_i_eq mc nt f initState st' h⟩
  · rintro ⟨f, st', h⟩
    by_contra hlt
    push_neg at hlt
    have h0 : (0 : Int) ≤ initState.i := by
      have : initState.i = 0 := rfl
      omega
    rw [runLoop_none_of_nonpos mc nt (by omega) f initState h0] at h
    exact Option.noConfusion h
  · intro h
    have h0 : initState.i ≤ mc - 1 := by
      have : initState.i = 0 := rfl
      omega
    obtain ⟨st', hst'⟩ := runLoop_exit mc nt (mc - 1 - initState.i).toNat initState h0 rfl
    exact ⟨_, st', hst'⟩

/-- C10 witness: with `message_count = 3`, one slot, the loop
terminates (and indeed `3 ≥ 1`). -/
theorem c10_loop_termination_iff_witness :
    ∃ f st', runLoop 3 1 f initState = some st' :=
  (c10_loop_termination_iff 3 1 (by decide)).1.mpr (by decide)

/-- C4: the claim says every `file_writer` execution, the open-failure
path included, still releases its message buffer.  The code does not:
on `fopen` failure (line 69) the early `return 0` at line 71 skips the
`zmq_msg_close`/`free` of lines 76-77, so the buffer is leaked.  This
theorem evaluates the embedded worker at such a failing input: the
diagnostic is logged and the write skipped as claimed, but
`released = false`, contradicting the claim (and the code's own
comment at line 57, "The zmq_msg data is freed at the end to avoid a
memory leak"). -/
theorem c4_open_failure_leaks_buffer :
    file_writer "/disk" 0 true [42] =
      { logged := true, opened := true, written := none, released := false } := by
  rfl

/-- C9: with `disk_name = "/network"` the worker performs no filesystem
operation — `fopen` is never invoked and nothing is written — and it
still releases the message buffer, for every counter value, every
`fopen`-environment outcome and every payload. -/
theorem c9_network_mode_no_files (ctr : Nat) (openFails : Bool) (payload : List Nat) :
    (file_writer "/network" ctr openFails payload).opened = false ∧
    (file_writer "/network" ctr openFails payload).written = none ∧
    (file_writer "/network" ctr openFails payload).released = true := by
  refine ⟨?_, ?_, ?_⟩ <;> rfl

/-- C5 counterexample: the claim says a requested worker count below 1
is rejected with a fast failure at configuration time.  The code has
no such check: with six arguments and `atoi(argv[5]) = 0`,
configuration succeeds and yields `no_threads = 0` (which is below 1);
`parse_no_threads` has no failure outcome at all. -/
theorem c5_below_one_not_rejected :
    parse_no_threads 6 0 = 0 ∧ (0 : Int) < 1 := by
  exact ⟨rfl, by decide⟩

/-- C5 amended: a requested count above `MAX_THREADS = 10` is clamped
to 10 (lines 119-120), but a count below 1 is not rejected — any value
not exceeding 10, negative or zero included, is used unchanged. -/
theorem c5_clamp_above_only (a : Int) :
    (MAX_THREADS < a → parse_no_threads 6 a = MAX_THREADS) ∧
    (a ≤ MAX_THREADS → parse_no_threads 6 a = a) := by
  refine ⟨fun h => ?_, fun h => ?_⟩
  · unfold parse_no_threads
    rw [if_pos (by norm_num), if_pos h]
  · unfold parse_no_threads
    rw [if_pos (by norm_num), if_neg (not_lt.mpr h)]

/-- C5 amended, witness: a requested 15 is clamped to 10, a requested
0 is accepted unchanged. -/
theorem c5_clamp_above_only_witness :
    parse_no_threads 6 15 = MAX_THREADS ∧ parse_no_threads 6 0 = 0 :=
  ⟨(c5_clamp_above_only 15).1 (by decide), (c5_clamp_above_only 0).2 (by decide)⟩

/-- C7: the integrity check passes exactly when
`current - previous = 1` (line 188); on the synthetic counter sequence
`[0, 1, 2, 4, 5]` (baseline 0, then four received messages) exactly
one diagnostic is emitted, carrying the previous/current pair
`(2, 4)`, and the checker runs on to the end of the sequence (final
`msg_counter = 5`) — there is no abort path. -/
theorem c7_gap_flagged_run_continues :
    (∀ p c : Int, corruptFlag p c = false ↔ c - p = 1) ∧
    runChecker 0 [1, 2, 4, 5] = ([(2, 4)], 5) := by
  constructor
  · intro p c
    simp [corruptFlag]
  · rfl

/-- C8: if the measured full-run elapsed time is 0 microseconds it is
replaced by 1 (lines 220-221), the clamped value is positive for every
measurement, and the aggregate throughput at a zero measurement is the
line-229 formula evaluated at 1 microsecond — the aggregate report
never divides by zero. -/
theorem c8_zero_elapsed_clamped :
    clampElapsed 0 = 1 ∧ (∀ e : Nat, 0 < clampElapsed e) ∧
    (∀ mc : Nat, aggThroughput mc 0 = throughputCalc mc 1) := by
  refine ⟨rfl, fun e => ?_, fun mc => rfl⟩
  unfold clampElapsed
  split <;> omega

/-- C6 counterexample: the claim says every report computes
`throughput = round(count / elapsed * 1_000_000)`.  The code casts the
`double` rate to `unsigned long` (lines 206, 229), which truncates:
at `count = 1000`, `elapsed = 600000` the rate is 5000/3 ≈ 1666.67, the
code reports 1666 while the claimed rounding gives 1667. -/
theorem c6_truncates_not_rounds :
    throughputCalc 1000 600000 ≠ specThroughput 1000 600000 := by
  have h1 : throughputCalc 1000 600000 = 1666 := by
    unfold throughputCalc
    have hq : ((1000 : Nat) : ℚ) / ((600000 : Nat) : ℚ) * 1000000 = 5000 / 3 := by
      norm_num
    rw [hq, Int.floor_eq_iff]
    norm_num
  have h2 : specThroughput 1000 600000 = 1667 := by
    unfold specThroughput
    have hq : ((1000 : Nat) : ℚ) / ((600000 : Nat) : ℚ) * 1000000 = 5000 / 3 := by
      norm_num
    rw [hq, round_eq]
    have hq2 : (5000 : ℚ) / 3 + 1 / 2 = 10003 / 6 := by norm_num
    rw [hq2, Int.floor_eq_iff]
    norm_num
  rw [h1, h2]
  decide

/-- C6 amended: throughput is the *floor* (truncation) of
`count / elapsed * 1_000_000`, megabytes is `throughput * size / 1_000_000`,
megabits is exactly 8 × megabytes, and on the claim's concrete input
(`count = 1000`, `elapsed = 500000`, `size = 100`, where the rate is the
whole number 2000 and truncation and rounding agree) the reported
values are 2000 msg/s, 0.2 MB/s and 1.6 Mb/s. -/
theorem c6_floor_formulas (c e s : Nat) :
    megabitsCalc c e s = 8 * megabytesCalc c e s ∧
    ((throughputCalc c e : ℚ) ≤ (c : ℚ) / (e : ℚ) * 1000000 ∧
      (c : ℚ) / (e : ℚ) * 1000000 < throughputCalc c e + 1) ∧
    throughputCalc 1000 500000 = 2000 ∧
    megabytesCalc 1000 500000 100 = 1 / 5 ∧
    megabitsCalc 1000 500000 100 = 8 / 5 := by
  have h2000 : throughputCalc 1000 500000 = 2000 := by
    unfold throughputCalc
    have hq : ((1000 : Nat) : ℚ) / ((500000 : Nat) : ℚ) * 1000000 = 2000 := by
      norm_num
    rw [hq, Int.floor_eq_iff]
    norm_num
  refine ⟨?_, ⟨Int.floor_le _, Int.lt_floor_add_one _⟩, h2000, ?_, ?_⟩
  · unfold megabitsCalc megabytesCalc
    ring
  · unfold megabytesCalc
    rw [h2000]
    norm_num
  · unfold megabitsCalc
    rw [h2000]
    norm_num

/-- C3: the claim says the `%06d` field of the file name is the
counter value assigned to the message at dispatch time.  The code's
worker instead reads the shared `thread_ctr` global when it runs
(line 67), unsynchronized with the orchestrator's increment at
line 203: under the schedule "create worker 0; `thread_ctr++`; worker
0 runs" the first dispatched message observes counter 1 — not its
dispatch-time value 0, which it observes only under the schedule where
it runs before the increment — and is therefore written to
`/disk/data/test000001.dat`. -/
theorem c3_filename_counter_races :
    (crun [Choice.mn, Choice.wk 0] cinit).observed 0 = some 0 ∧
    (crun [Choice.mn, Choice.mn, Choice.wk 0] cinit).observed 0 = some 1 ∧
    fileName "/disk" 1 = "/disk/data/test000001.dat" := by
  refine ⟨rfl, rfl, rfl⟩

end LocalThr
